import Mathlib

/-!
Verification of the metrics/aggregation core of the acrylic-marker sales
dashboard (`src/Acrylic.py`).  The script loads a spreadsheet into a table,
derives per-row metrics (ASP, unit price, months-listed, stability score),
and computes the grouped/pivoted views feeding each display panel.  We embed
the table as a list of rows, machine floats' division-by-zero behaviour as an
explicit sentinel type, and each pandas group-by as an executable sum over a
filtered list.
-/

namespace Acrylic

/-- An ink-colour cell as read from the spreadsheet: either a string value or
a missing cell (which pandas surfaces as the float NaN). -/
inductive Cell where
  | str (s : String)
  | na
deriving DecidableEq, Repr

/-- Python's `str(x)` on a cell: the identity on strings; the float NaN
prints as `"nan"`. -/
def Cell.pyStr : Cell → String
  | .str s => s
  | .na => "nan"

/-- Whether the cell holds a string value. -/
def Cell.isStr : Cell → Bool
  | .str _ => true
  | .na => false

/-- Result of a float division in pandas: a finite value, a signed infinity,
or NaN.  Division never raises. -/
inductive PFloat where
  | fin (q : ℚ)
  | inf
  | ninf
  | nan
deriving DecidableEq, Repr

/-- Float division as numpy/pandas performs it on the coerced numeric
columns: `a / 0` is `inf`, `-inf` or `nan` according to the sign of `a`;
otherwise the exact quotient. -/
def pdiv (a b : ℚ) : PFloat :=
  if b = 0 then
    if 0 < a then .inf else if a < 0 then .ninf else .nan
  else .fin (a / b)

/-- Subtracting the scalar 1 from a float, as in `pct_change`'s
`cur / prev - 1`; infinities and NaN absorb the subtraction. -/
def PFloat.subOne : PFloat → PFloat
  | .fin q => .fin (q - 1)
  | .inf => .inf
  | .ninf => .ninf
  | .nan => .nan

/-- One raw spreadsheet row.  `Date` is the raw `YYYYMM` value; the numeric
columns are `Option ℚ` (`none` = unparseable, coerced to 0 by
`pd.to_numeric(errors='coerce').fillna(0)`); `unitCount` is the
pen-count column, `priceTier` the bucketed price-tier label. -/
structure RawRow where
  Date : Nat
  Brand : String
  ASIN : String
  Amount : Option ℚ
  Sales : Option ℚ
  Price : Option ℚ
  Rate : Option ℚ
  unitCount : Option ℚ
  Ink_Color : Cell
  priceTier : String
deriving DecidableEq, Repr

/-- `pd.to_numeric(..., errors='coerce').fillna(0)`. -/
def num (o : Option ℚ) : ℚ := o.getD 0

/-- `Date_Obj.dt.to_period('M')`: the month key `(year, month)` of a raw
`YYYYMM` date value. -/
def monthKey (d : Nat) : Nat × Nat := (d / 100, d % 100)

/-- `Date_Obj.dt.to_period('Q')`: the quarter key `(year, quarter)`. -/
def quarterKey (d : Nat) : Nat × Nat := (d / 100, (d % 100 + 2) / 3)

/-- `total_months_in_dataset = df['Date'].nunique()`: the number of distinct
raw date values in the dataset. -/
def total_months_in_dataset (rows : List RawRow) : Nat :=
  ((rows.map RawRow.Date).dedup).length

/-- `df.groupby('ASIN')['Date'].count()` merged back on `ASIN`: the number
of rows of the dataset carrying this ASIN (the code counts rows, not
distinct dates). -/
def countAsinRows (rows : List RawRow) (a : String) : Nat :=
  (rows.filter (fun r => r.ASIN == a)).length

/-- The number of distinct date values among the rows carrying this ASIN
(what `nunique` would give; stated for comparison with `countAsinRows`). -/
def distinctMonthsOfAsin (rows : List RawRow) (a : String) : Nat :=
  (((rows.filter (fun r => r.ASIN == a)).map RawRow.Date).dedup).length

/-- One enriched row, after the derivations in `load_data_local`. -/
structure Row where
  Date : Nat
  Date_Str : Nat × Nat
  Quarter : Nat × Nat
  Year : Nat
  Brand : String
  ASIN : String
  Amount : ℚ
  Sales : ℚ
  Price : ℚ
  Rate : ℚ
  unitCount : ℚ
  ASP : PFloat
  Unit_Price : PFloat
  Ink_Color : Cell
  priceTier : String
  monthsListed : Nat
  stability : ℚ
deriving DecidableEq, Repr

/-- The success path of `load_data_local`: parse dates, coerce numerics,
compute `ASP`, `Unit_Price`, merge the per-ASIN row count back on every row
and divide by the global distinct-date count. -/
def load_enrich (rows : List RawRow) : List Row :=
  let total := total_months_in_dataset rows
  rows.map fun r =>
    let cnt := countAsinRows rows r.ASIN
    { Date := r.Date
      Date_Str := monthKey r.Date
      Quarter := quarterKey r.Date
      Year := r.Date / 100
      Brand := r.Brand
      ASIN := r.ASIN
      Amount := num r.Amount
      Sales := num r.Sales
      Price := num r.Price
      Rate := num r.Rate
      unitCount := num r.unitCount
      ASP := pdiv (num r.Amount) (num r.Sales)
      Unit_Price := pdiv (num r.Price) (num r.unitCount)
      Ink_Color := r.Ink_Color
      priceTier := r.priceTier
      monthsListed := cnt
      stability := (cnt : ℚ) / (total : ℚ) }

/-- `load_data_local`: on a readable, well-formed source (`some rows`) it
returns the enriched table and the global distinct-date count; any failure
(missing file, malformed content) is caught and yields `(empty table, 0)`. -/
def load_data_local (input : Option (List RawRow)) : List Row × Nat :=
  match input with
  | some rows => (load_enrich rows, total_months_in_dataset rows)
  | none => ([], 0)

/-- The key `(ASIN, Date)` of a raw row; the dataset is advertised as having
one row per ASIN per month, i.e. these keys pairwise distinct. -/
def asinDateKey (r : RawRow) : String × Nat := (r.ASIN, r.Date)

/-- `df_filtered = df[df['Brand'].isin(selected_brands)]`. -/
def df_filtered (rows : List Row) (sel : List String) : List Row :=
  rows.filter fun r => sel.contains r.Brand

/-- The sum of the `Amount` column of a slice of the table. -/
def sumAmount (rows : List Row) : ℚ := (rows.map Row.Amount).sum

/-- One cell of `monthly_sales = df_filtered.groupby(['Date_Str','Brand'])['Amount'].sum()`. -/
def monthly_sales (rows : List Row) (sel : List String) (m : Nat × Nat) (b : String) : ℚ :=
  sumAmount ((df_filtered rows sel).filter fun r => r.Date_Str == m && r.Brand == b)

/-- One cell of the pivot
`q_data = df.groupby(['Quarter','Brand'])['Amount'].sum().unstack(fill_value=0)`
(note: built from the unfiltered `df`). -/
def q_data (rows : List Row) (q : Nat × Nat) (b : String) : ℚ :=
  sumAmount (rows.filter fun r => r.Quarter == q && r.Brand == b)

/-- One cell of `price_q = df.groupby(['Quarter','价格档位'])['Amount'].sum()`
(built from the unfiltered `df`). -/
def price_q (rows : List Row) (q : Nat × Nat) (t : String) : ℚ :=
  sumAmount (rows.filter fun r => r.Quarter == q && r.priceTier == t)

/-- The brand columns of the `q_data` pivot: the distinct brands of the table. -/
def brandsOf (rows : List Row) : List String := (rows.map Row.Brand).dedup

/-- The row total `q_data.sum(axis=1)` for one period: the summed `Amount`
of every row of the table falling in that quarter. -/
def periodTotal (rows : List Row) (q : Nat × Nat) : ℚ :=
  sumAmount (rows.filter fun r => r.Quarter == q)

/-- Summing the pivoted cells of one period across all brand columns. -/
def cellRowSum (rows : List Row) (q : Nat × Nat) : ℚ :=
  ((brandsOf rows).map fun b => q_data rows q b).sum

/-- The share row `q_data.div(q_data.sum(axis=1), axis=0)` summed across all
brand columns for one period. -/
def shareRowSum (rows : List Row) (q : Nat × Nat) : ℚ :=
  ((brandsOf rows).map fun b => q_data rows q b / periodTotal rows q).sum

/-- Chronological order on `(year, quarter)` keys. -/
def pairLe (a b : Nat × Nat) : Bool :=
  a.1 < b.1 || (a.1 = b.1 && a.2 ≤ b.2)

/-- Insert a quarter key into a chronologically sorted list. -/
def insertSorted (q : Nat × Nat) : List (Nat × Nat) → List (Nat × Nat)
  | [] => [q]
  | x :: xs => if pairLe q x then q :: x :: xs else x :: insertSorted q xs

/-- The sorted distinct quarters: the index of the `q_data` pivot. -/
def quartersOf (rows : List Row) : List (Nat × Nat) :=
  ((rows.map Row.Quarter).dedup).foldr insertSorted []

/-- One brand column of the `q_data` pivot as a series over the sorted
quarter index (`fill_value=0` for absent cells). -/
def qSeries (rows : List Row) (b : String) : List ℚ :=
  (quartersOf rows).map fun q => q_data rows q b

/-- `Series.pct_change(lag)`: entry `i` is `v_i / v_(i-lag) - 1`.  The first
`lag` entries have no lagged partner and are NaN; a zero lagged value gives
a signed infinity (or NaN for 0/0), exactly as float division does. -/
def pctChange (lag : Nat) (vals : List ℚ) : List PFloat :=
  (List.range vals.length).map fun i =>
    if lag ≤ i then (pdiv (vals.getD i 0) (vals.getD (i - lag) 0)).subOne
    else PFloat.nan

/-- `['White','Black','Gold','Silver','Metallic']`: the closed marker list of
the ink-colour classifier. -/
def solidColors : List String := ["White", "Black", "Gold", "Silver", "Metallic"]

/-- `startsWithL pat s`: whether `pat` is an initial segment of `s`. -/
def startsWithL : List Char → List Char → Bool
  | [], _ => true
  | _ :: _, [] => false
  | p :: ps, c :: cs => p == c && startsWithL ps cs

/-- Python's substring test `pat in s`, character-list form: some suffix of
`s` starts with `pat`. -/
def hasSub (pat : List Char) : List Char → Bool
  | [] => startsWithL pat []
  | c :: cs => startsWithL pat (c :: cs) || hasSub pat cs

/-- `lambda x: 'Independent' if any(c in str(x) for c in [...]) else 'Assorted'`:
the ink-colour classifier; the cell is stringified before the substring test. -/
def Color_Type (x : Cell) : String :=
  if solidColors.any (fun c => hasSub c.toList x.pyStr.toList) then "Independent"
  else "Assorted"

/-- One cell of `c_trend = df.groupby(['Date_Str','Color_Type'])['Amount'].sum()`
(built from the unfiltered `df`, after the classifier column is added). -/
def c_trend (rows : List Row) (m : Nat × Nat) (t : String) : ℚ :=
  sumAmount (rows.filter fun r => r.Date_Str == m && Color_Type r.Ink_Color == t)

/-- The view results the script hands to the display panels, as functions of
the enriched table and the sidebar brand selection.  `monthly` is built from
`df_filtered`; `qMatrix`, `qYoY`, `priceQ` and `colorTrend` are built from
the unfiltered `df`, exactly as in the script. -/
structure Views where
  monthly : Nat × Nat → String → ℚ
  qMatrix : Nat × Nat → String → ℚ
  qYoY : String → List PFloat
  priceQ : Nat × Nat → String → ℚ
  colorTrend : Nat × Nat → String → ℚ

/-- Assembling the panels from the enriched table and the brand selection,
mirroring which table (`df_filtered` or `df`) each panel reads in the script. -/
def assembleViews (rows : List Row) (sel : List String) : Views :=
  { monthly := fun m b => monthly_sales rows sel m b
    qMatrix := fun q b => q_data rows q b
    qYoY := fun b => pctChange 4 (qSeries rows b)
    priceQ := fun q t => price_q rows q t
    colorTrend := fun m t => c_trend rows m t }

/-- The whole session: load, then `if df.empty: st.stop()` (no views), else
assemble the views from the loaded table and the selection. -/
def runApp (input : Option (List RawRow)) (sel : List String) : Option Views :=
  let res := load_data_local input
  if res.1.isEmpty then none else some (assembleViews res.1 sel)

/-- A dataset with two rows for the same ASIN in the same month: the row
count and the distinct-month count differ. -/
def exDup : List RawRow :=
  [⟨202401, "B1", "A1", some 10, some 2, some 5, some 1, some 12, .str "White", "T1"⟩,
   ⟨202401, "B1", "A1", some 20, some 4, some 5, some 1, some 12, .str "White", "T1"⟩]

/-- The spec's scenario row `sales=0, amount=50`. -/
def exZero : List RawRow :=
  [⟨202401, "B1", "A1", some 50, some 0, some 5, some 1, some 12, .str "Assorted Colors", "T1"⟩]

/-- Two brands in one month: `BrandA` sells 3 (solid colour), `BrandB`
sells 5 (assorted colour). -/
def exBrands : List RawRow :=
  [⟨202401, "BrandA", "A1", some 3, some 1, some 5, some 1, some 12, .str "White", "T1"⟩,
   ⟨202401, "BrandB", "A2", some 5, some 1, some 5, some 1, some 12, .str "Rainbow", "T1"⟩]

/-- The spec's scenario dataset: three months, ASIN `A1` present in January
and March only. -/
def exThree : List RawRow :=
  [⟨202401, "B1", "A1", some 10, some 2, some 5, some 1, some 12, .str "White", "T1"⟩,
   ⟨202402, "B1", "A2", some 8, some 2, some 4, some 1, some 12, .str "Rainbow", "T1"⟩,
   ⟨202403, "B1", "A1", some 12, some 3, some 5, some 1, some 12, .str "White", "T1"⟩]

/-- The first enriched row of the scenario dataset (ASIN `A1`, January). -/
def exThreeRow : Row := (load_enrich exThree).head (by decide)

lemma load_enrich_fields {rows : List RawRow} {row : Row} (h : row ∈ load_enrich rows) :
    row.monthsListed = countAsinRows rows row.ASIN ∧
    row.stability =
      (countAsinRows rows row.ASIN : ℚ) / (total_months_in_dataset rows : ℚ) ∧
    row.ASP = pdiv row.Amount row.Sales ∧
    row.Unit_Price = pdiv row.Price row.unitCount := by
  simp only [load_enrich, List.mem_map] at h
  obtain ⟨r, hr, rfl⟩ := h
  exact ⟨rfl, rfl, rfl, rfl⟩

lemma ne_nil_of_mem_load_enrich {rows : List RawRow} {row : Row}
    (h : row ∈ load_enrich rows) : rows ≠ [] := by
  rintro rfl
  simp [load_enrich] at h

/-- C9: a failed load (missing, unreadable or malformed source) returns the
empty table and a total-month count of zero, and the session computes no
views at all: the script stops before any panel is assembled. -/
theorem load_failure_blocks :
    ∀ sel : List String, load_data_local none = ([], 0) ∧ runApp none sel = none := by
  intro sel
  exact ⟨rfl, rfl⟩

/-- C10: a non-string ink-colour cell (in a loaded table, a missing value
surfacing as the float NaN) is stringified by the classifier and can match
no marker substring, so it is always classified as Assorted; the classifier
is total and never raises. -/
theorem colorType_nonstring_assorted :
    ∀ c : Cell, c.isStr = false → Color_Type c = "Assorted" := by
  intro c h
  cases c with
  | str s => simp [Cell.isStr] at h
  | na => decide

/-- Witness for C10 at the missing cell. -/
theorem colorType_nonstring_assorted_witness :
    Cell.na.isStr = false ∧ Color_Type Cell.na = "Assorted" :=
  ⟨rfl, colorType_nonstring_assorted Cell.na rfl⟩

/-- C7, counterexample part is not needed: the claim holds.  Each of the
first `lag = 4` entries of the quarterly year-over-year series is the NaN
gap (pandas has no lagged partner there), and NaN is not the zero value. -/
theorem pctChange_head_nan (rows : List Row) (b : String) (i : Nat)
    (h4 : i < 4) (hlen : i < (qSeries rows b).length) :
    (pctChange 4 (qSeries rows b))[i]? = some PFloat.nan ∧
      PFloat.nan ≠ PFloat.fin 0 := by
  constructor
  · simp only [pctChange, List.getElem?_map, List.getElem?_range hlen, Option.map_some']
    rw [if_neg (by omega)]
  · simp

/-- Witness for C7 on the two-brand dataset (one quarter, so index 0 is
within both bounds). -/
theorem pctChange_head_nan_witness :
    (0 : Nat) < 4 ∧ 0 < (qSeries (load_enrich exBrands) "BrandA").length ∧
      ((pctChange 4 (qSeries (load_enrich exBrands) "BrandA"))[0]? =
          some PFloat.nan ∧
        PFloat.nan ≠ PFloat.fin 0) :=
  ⟨by decide, by decide,
    pctChange_head_nan (load_enrich exBrands) "BrandA" 0 (by decide) (by decide)⟩

/-- C2 counterexample: on the spec's own scenario row `sales=0, amount=50`
the code computes `asp = 50 / 0 = inf` (float division), not the claimed 0. -/
theorem asp_div_zero_inf_cex :
    (load_enrich exZero).map Row.ASP = [PFloat.inf] ∧ PFloat.inf ≠ PFloat.fin 0 := by
  constructor
  · decide
  · decide

/-- C2 amended: the ratio columns are float divisions attached row-wise;
division by zero never raises and never halts the load, but its value is the
IEEE sentinel — positive over zero is `inf`, negative over zero `-inf`, zero
over zero NaN — not the number 0. -/
theorem asp_div_zero_sentinel (rows : List RawRow) :
    ((load_enrich rows).map Row.ASP =
        rows.map fun r => pdiv (num r.Amount) (num r.Sales)) ∧
      ((load_enrich rows).map Row.Unit_Price =
        rows.map fun r => pdiv (num r.Price) (num r.unitCount)) ∧
      (∀ a : ℚ, 0 < a → pdiv a 0 = PFloat.inf) ∧
      (∀ a : ℚ, a < 0 → pdiv a 0 = PFloat.ninf) ∧
      pdiv 0 0 = PFloat.nan := by
  refine ⟨?_, ?_, ?_, ?_, ?_⟩
  · simp [load_enrich, List.map_map]
  · simp [load_enrich, List.map_map]
  · intro a ha
    simp [pdiv, ha]
  · intro a ha
    rw [pdiv, if_pos rfl, if_neg (by linarith), if_pos ha]
  · decide

/-- Witness for C2 amended at the scenario row. -/
theorem asp_div_zero_sentinel_witness :
    ((load_enrich exZero).map Row.ASP =
        exZero.map fun r => pdiv (num r.Amount) (num r.Sales)) ∧
      (0 : ℚ) < 50 ∧ pdiv 50 0 = PFloat.inf :=
  ⟨(asp_div_zero_sentinel exZero).1, by decide,
    (asp_div_zero_sentinel exZero).2.2.1 50 (by decide)⟩

/-- C4: a row surviving the brand filter is the very row of the unfiltered
enriched table, so it carries the months-listed and stability values computed
against the whole dataset, and the dataset-total month count returned by the
load step does not depend on the selection. -/
theorem filter_preserves_stability (rows : List RawRow) (sel : List String) (row : Row)
    (h : row ∈ df_filtered (load_enrich rows) sel) :
    row ∈ load_enrich rows ∧
      row.monthsListed = countAsinRows rows row.ASIN ∧
      row.stability =
        (countAsinRows rows row.ASIN : ℚ) / (total_months_in_dataset rows : ℚ) ∧
      (load_data_local (some rows)).2 = total_months_in_dataset rows := by
  have hm : row ∈ load_enrich rows := (List.mem_filter.mp h).1
  obtain ⟨h1, h2, -, -⟩ := load_enrich_fields hm
  exact ⟨hm, h1, h2, rfl⟩

/-- Witness for C4 on the three-month scenario dataset filtered to its brand. -/
theorem filter_preserves_stability_witness :
    exThreeRow ∈ df_filtered (load_enrich exThree) ["B1"] ∧
      (exThreeRow ∈ load_enrich exThree ∧
        exThreeRow.monthsListed = countAsinRows exThree exThreeRow.ASIN ∧
        exThreeRow.stability =
          (countAsinRows exThree exThreeRow.ASIN : ℚ) /
            (total_months_in_dataset exThree : ℚ) ∧
        (load_data_local (some exThree)).2 = total_months_in_dataset exThree) := by
  have hhead : exThreeRow ∈ load_enrich exThree := List.head_mem _
  have hmem : exThreeRow ∈ df_filtered (load_enrich exThree) ["B1"] :=
    List.mem_filter.mpr ⟨hhead, by decide⟩
  exact ⟨hmem, filter_preserves_stability exThree ["B1"] exThreeRow hmem⟩

/-- C5 counterexample: with only `BrandA` selected, the colour-type trend
still counts `BrandB`'s 5 units of revenue (the script builds it from the
unfiltered `df`), while an aggregation over the brand-filtered rows would
give 0. -/
theorem views_ignore_filter_cex :
    (assembleViews (load_enrich exBrands) ["BrandA"]).colorTrend (2024, 1) "Assorted" = 5 ∧
      c_trend (df_filtered (load_enrich exBrands) ["BrandA"]) (2024, 1) "Assorted" = 0 ∧
      (5 : ℚ) ≠ 0 := by
  refine ⟨?_, ?_, by norm_num⟩
  · have h : ((load_enrich exBrands).filter
        (fun r => r.Date_Str == ((2024 : Nat), (1 : Nat)) &&
          Color_Type r.Ink_Color == "Assorted")).map Row.Amount = [5] := by decide
    simp only [assembleViews, c_trend, sumAmount]
    rw [h]
    norm_num
  · have h : ((df_filtered (load_enrich exBrands) ["BrandA"]).filter
        (fun r => r.Date_Str == ((2024 : Nat), (1 : Nat)) &&
          Color_Type r.Ink_Color == "Assorted")).map Row.Amount = [] := by decide
    simp only [c_trend, sumAmount]
    rw [h]
    simp

/-- C5 amended: the brand filter is applied before aggregation for the
panels built from `df_filtered` (here the monthly brand-sales view: a cell
for an unselected brand is 0), but the quarterly matrices, the quarterly
year-over-year series, the price-tier view and the colour-type trend are
built from the unfiltered table and do not change when the selection does. -/
theorem view_filter_scope (rows : List Row) (sel sel' : List String) :
    (∀ m b, b ∉ sel → (assembleViews rows sel).monthly m b = 0) ∧
      (∀ q b, (assembleViews rows sel).qMatrix q b = (assembleViews rows sel').qMatrix q b) ∧
      (∀ b, (assembleViews rows sel).qYoY b = (assembleViews rows sel').qYoY b) ∧
      (∀ q t, (assembleViews rows sel).priceQ q t = (assembleViews rows sel').priceQ q t) ∧
      (∀ m t,
        (assembleViews rows sel).colorTrend m t = (assembleViews rows sel').colorTrend m t) := by
  refine ⟨?_, fun q b => rfl, fun b => rfl, fun q t => rfl, fun m t => rfl⟩
  intro m b hb
  have hnil : (df_filtered rows sel).filter
      (fun r => r.Date_Str == m && r.Brand == b) = [] := by
    rw [List.filter_eq_nil_iff]
    intro r hr
    have hsel : sel.contains r.Brand = true := by
      simpa [df_filtered] using (List.mem_filter.mp hr).2
    simp only [Bool.and_eq_true, beq_iff_eq, not_and]
    intro _ hrb
    exact absurd (by simpa [hrb] using hsel) hb
  simp [assembleViews, monthly_sales, hnil, sumAmount]

/-- Witness for C5 amended on the two-brand dataset with only `BrandA`
selected. -/
theorem view_filter_scope_witness :
    ("BrandB" ∉ ["BrandA"]) ∧
      (assembleViews (load_enrich exBrands) ["BrandA"]).monthly (2024, 1) "BrandB" = 0 ∧
      (assembleViews (load_enrich exBrands) ["BrandA"]).colorTrend (2024, 1) "Assorted" =
        (assembleViews (load_enrich exBrands) []).colorTrend (2024, 1) "Assorted" :=
  ⟨by decide,
    (view_filter_scope (load_enrich exBrands) ["BrandA"] []).1 (2024, 1) "BrandB" (by decide),
    (view_filter_scope (load_enrich exBrands) ["BrandA"] []).2.2.2.2 (2024, 1) "Assorted"⟩

lemma sum_map_zero {α : Type} (l : List α) : (l.map fun _ => (0 : ℚ)).sum = 0 := by
  induction l with
  | nil => simp
  | cons a t ih => simp [ih]

lemma sum_map_add {α : Type} (l : List α) (f g : α → ℚ) :
    (l.map fun x => f x + g x).sum = (l.map f).sum + (l.map g).sum := by
  induction l with
  | nil => simp
  | cons a t ih => simp [ih]; ring

lemma sum_map_div {α : Type} (l : List α) (f : α → ℚ) (T : ℚ) :
    (l.map fun x => f x / T).sum = (l.map f).sum / T := by
  induction l with
  | nil => simp
  | cons a t ih => simp [ih, add_div]

lemma sum_map_ite {bs : List String} (hn : bs.Nodup) {x : String} (hx : x ∈ bs) (v : ℚ) :
    (bs.map fun b => if x = b then v else 0).sum = v := by
  induction bs with
  | nil => cases hx
  | cons a t ih =>
    rcases List.mem_cons.mp hx with rfl | hx'
    · simp only [List.map_cons, List.sum_cons]
      have hz : (t.map fun b => if x = b then v else 0).sum = 0 := by
        have hcongr : (t.map fun b => if x = b then v else 0) = t.map fun _ => (0 : ℚ) :=
          List.map_congr_left fun b hb =>
            if_neg fun (hc : x = b) => (List.nodup_cons.mp hn).1 (by rw [hc]; exact hb)
        rw [hcongr, sum_map_zero]
      simp [hz]
    · have ha : ¬(x = a) := fun hc => (List.nodup_cons.mp hn).1 (hc ▸ hx')
      simp only [List.map_cons, List.sum_cons, if_neg ha]
      rw [ih (List.nodup_cons.mp hn).2 hx', zero_add]

lemma sum_q_cells (bs : List String) (hn : bs.Nodup) (rows : List Row) (q : Nat × Nat)
    (hc : ∀ r ∈ rows, r.Brand ∈ bs) :
    (bs.map fun b => q_data rows q b).sum = periodTotal rows q := by
  induction rows with
  | nil =>
    have h0 : (bs.map fun b => q_data ([] : List Row) q b) = bs.map fun _ => (0 : ℚ) :=
      List.map_congr_left fun b _ => by simp [q_data, sumAmount]
    rw [h0, sum_map_zero]
    simp [periodTotal, sumAmount]
  | cons r t ih =>
    have hcells : ∀ b, q_data (r :: t) q b =
        (if r.Quarter = q ∧ r.Brand = b then r.Amount else 0) + q_data t q b := by
      intro b
      simp only [q_data, sumAmount, List.filter_cons]
      by_cases h : (r.Quarter == q && r.Brand == b) = true
      · have hp : r.Quarter = q ∧ r.Brand = b := by simpa using h
        rw [if_pos h, if_pos hp]
        simp
      · have hp : ¬(r.Quarter = q ∧ r.Brand = b) := by simpa using h
        rw [if_neg h, if_neg hp, zero_add]
    have hmap : (bs.map fun b => q_data (r :: t) q b) =
        bs.map fun b =>
          (if r.Quarter = q ∧ r.Brand = b then r.Amount else 0) + q_data t q b :=
      List.map_congr_left fun b _ => hcells b
    have hper : periodTotal (r :: t) q =
        (if r.Quarter = q then r.Amount else 0) + periodTotal t q := by
      simp only [periodTotal, sumAmount, List.filter_cons]
      by_cases h : (r.Quarter == q) = true
      · rw [if_pos h, if_pos (by simpa using h)]
        simp
      · rw [if_neg h, if_neg (by simpa using h), zero_add]
    rw [hmap, sum_map_add, hper, ih fun x hx => hc x (List.mem_cons_of_mem _ hx)]
    congr 1
    by_cases hq : r.Quarter = q
    · have : (bs.map fun b => if r.Quarter = q ∧ r.Brand = b then r.Amount else 0) =
          bs.map fun b => if r.Brand = b then r.Amount else 0 :=
        List.map_congr_left fun b _ => by simp [hq]
      rw [this, sum_map_ite hn (hc r (List.mem_cons_self r t)) r.Amount, if_pos hq]
    · have : (bs.map fun b => if r.Quarter = q ∧ r.Brand = b then r.Amount else 0) =
          bs.map fun _ => (0 : ℚ) :=
        List.map_congr_left fun b _ => by simp [hq]
      rw [this, sum_map_zero, if_neg hq]

/-- C6: summing the `q_data` pivot cells of one period across all brand
columns recovers the unpivoted period total, and when that total is nonzero
the share-of-period-total values sum to exactly 1. -/
theorem shares_roundtrip (rows : List Row) (q : Nat × Nat) :
    cellRowSum rows q = periodTotal rows q ∧
      (periodTotal rows q ≠ 0 → shareRowSum rows q = 1) := by
  have hcover : ∀ r ∈ rows, r.Brand ∈ brandsOf rows := fun r hr => by
    simp only [brandsOf, List.mem_dedup]
    exact List.mem_map.mpr ⟨r, hr, rfl⟩
  have hpart := sum_q_cells (brandsOf rows) (List.nodup_dedup _) rows q hcover
  refine ⟨hpart, fun hT => ?_⟩
  unfold shareRowSum
  rw [sum_map_div, hpart, div_self hT]

/-- Witness for C6 on the two-brand dataset: the single quarter has total 8
and shares summing to 1. -/
theorem shares_roundtrip_witness :
    periodTotal (load_enrich exBrands) (2024, 1) ≠ 0 ∧
      cellRowSum (load_enrich exBrands) (2024, 1) = periodTotal (load_enrich exBrands) (2024, 1) ∧
      shareRowSum (load_enrich exBrands) (2024, 1) = 1 := by
  have hmap : ((load_enrich exBrands).filter
      (fun r => r.Quarter == ((2024 : Nat), (1 : Nat)))).map Row.Amount = [3, 5] := by
    decide
  have hT : periodTotal (load_enrich exBrands) (2024, 1) ≠ 0 := by
    simp only [periodTotal, sumAmount]
    rw [hmap]
    norm_num
  exact ⟨hT, (shares_roundtrip (load_enrich exBrands) (2024, 1)).1,
    (shares_roundtrip (load_enrich exBrands) (2024, 1)).2 hT⟩

lemma nodup_map_snd {α β γ : Type} (l : List α) (f : α → β) (g : α → γ)
    (h : (l.map fun x => (f x, g x)).Nodup) (c : β) (hc : ∀ x ∈ l, f x = c) :
    (l.map g).Nodup := by
  have hmg : l.map g = (l.map fun x => (f x, g x)).map Prod.snd := by
    rw [List.map_map]
    rfl
  rw [hmg]
  refine List.Nodup.map_on ?_ h
  intro x hx y hy hxy
  obtain ⟨a, ha, rfl⟩ := List.mem_map.mp hx
  obtain ⟨b, hb, rfl⟩ := List.mem_map.mp hy
  rw [hc a ha, hc b hb]
  exact congrArg (Prod.mk c) hxy

lemma countAsinRows_eq_distinct (rows : List RawRow) (a : String)
    (hn : (rows.map asinDateKey).Nodup) :
    countAsinRows rows a = distinctMonthsOfAsin rows a := by
  unfold countAsinRows distinctMonthsOfAsin
  have hsub : ((rows.filter fun r => r.ASIN == a).map asinDateKey).Sublist
      (rows.map asinDateKey) :=
    (List.filter_sublist rows).map asinDateKey
  have hpair : ((rows.filter fun r => r.ASIN == a).map asinDateKey).Nodup :=
    hn.sublist hsub
  have hdates : ((rows.filter fun r => r.ASIN == a).map RawRow.Date).Nodup := by
    refine nodup_map_snd _ (fun r => r.ASIN) RawRow.Date hpair a ?_
    intro r hr
    simpa using (List.mem_filter.mp hr).2
  rw [List.dedup_eq_self.mpr hdates, List.length_map]

lemma distinct_le_total (rows : List RawRow) (a : String) :
    distinctMonthsOfAsin rows a ≤ total_months_in_dataset rows := by
  unfold distinctMonthsOfAsin total_months_in_dataset
  have hsub : ((rows.filter fun r => r.ASIN == a).map RawRow.Date) ⊆
      rows.map RawRow.Date := by
    intro d hd
    obtain ⟨r, hr, rfl⟩ := List.mem_map.mp hd
    exact List.mem_map.mpr ⟨r, (List.mem_filter.mp hr).1, rfl⟩
  rw [← List.card_toFinset ((rows.filter fun r => r.ASIN == a).map RawRow.Date),
    ← List.card_toFinset (rows.map RawRow.Date)]
  apply Finset.card_le_card
  intro x hx
  rw [List.mem_toFinset] at hx ⊢
  exact hsub hx

lemma total_pos {rows : List RawRow} (h : rows ≠ []) :
    0 < total_months_in_dataset rows := by
  unfold total_months_in_dataset
  apply List.length_pos.mpr
  intro hc
  exact h (List.map_eq_nil_iff.mp ((List.dedup_eq_nil (rows.map RawRow.Date)).mp hc))

/-- C1 counterexample: on a dataset with two rows for ASIN `A1` in the same
month, the code attaches `months_listed = 2` (its row count) although `A1`
appears in only 1 distinct month. -/
theorem monthsListed_ne_distinct_cex :
    ¬ (∀ row ∈ load_enrich exDup,
        row.monthsListed = distinctMonthsOfAsin exDup row.ASIN) := by
  decide

/-- C1 amended: `months_listed` is the number of rows carrying the ASIN;
when no ASIN has two rows with the same date (the advertised
one-row-per-ASIN-per-month shape) this coincides with the number of
distinct months in which the ASIN appears. -/
theorem monthsListed_eq_distinct_of_nodup (rows : List RawRow) (row : Row)
    (hn : (rows.map asinDateKey).Nodup) (hm : row ∈ load_enrich rows) :
    row.monthsListed = distinctMonthsOfAsin rows row.ASIN := by
  rw [(load_enrich_fields hm).1, countAsinRows_eq_distinct rows row.ASIN hn]

/-- Witness for C1 amended on the three-month scenario dataset. -/
theorem monthsListed_eq_distinct_witness :
    (exThree.map asinDateKey).Nodup ∧ exThreeRow ∈ load_enrich exThree ∧
      exThreeRow.monthsListed = distinctMonthsOfAsin exThree exThreeRow.ASIN :=
  ⟨by decide, List.head_mem _,
    monthsListed_eq_distinct_of_nodup exThree exThreeRow (by decide) (List.head_mem _)⟩

/-- C3 counterexample: with two rows for ASIN `A1` in one month the dataset
has 1 distinct month but `months_listed = 2 > 1`, so the claimed invariant
fails (and the stability score is 2, outside the unit interval). -/
theorem stability_bounds_cex :
    ¬ (∀ row ∈ load_enrich exDup,
        (0 ≤ row.stability ∧ row.stability ≤ 1) ∧
          row.monthsListed ≤ total_months_in_dataset exDup) := by
  intro h
  have h2 : ∀ row ∈ load_enrich exDup,
      row.monthsListed ≤ total_months_in_dataset exDup :=
    fun r hr => (h r hr).2
  revert h2
  decide

/-- C3 amended: provided no ASIN has two rows with the same date value,
every row's stability score lies in the unit interval and its
`months_listed` never exceeds the dataset's distinct-month total. -/
theorem stability_bounds_of_nodup (rows : List RawRow) (row : Row)
    (hn : (rows.map asinDateKey).Nodup) (hm : row ∈ load_enrich rows) :
    (0 ≤ row.stability ∧ row.stability ≤ 1) ∧
      row.monthsListed ≤ total_months_in_dataset rows := by
  obtain ⟨h1, h2, -, -⟩ := load_enrich_fields hm
  have hle : countAsinRows rows row.ASIN ≤ total_months_in_dataset rows := by
    rw [countAsinRows_eq_distinct rows row.ASIN hn]
    exact distinct_le_total rows row.ASIN
  have hpos : 0 < total_months_in_dataset rows := total_pos (ne_nil_of_mem_load_enrich hm)
  refine ⟨⟨?_, ?_⟩, ?_⟩
  · rw [h2]
    positivity
  · rw [h2, div_le_one (by exact_mod_cast hpos)]
    exact_mod_cast hle
  · rw [h1]
    exact hle

/-- Witness for C3 amended on the three-month scenario dataset. -/
theorem stability_bounds_witness :
    (exThree.map asinDateKey).Nodup ∧ exThreeRow ∈ load_enrich exThree ∧
      ((0 ≤ exThreeRow.stability ∧ exThreeRow.stability ≤ 1) ∧
        exThreeRow.monthsListed ≤ total_months_in_dataset exThree) :=
  ⟨by decide, List.head_mem _,
    stability_bounds_of_nodup exThree exThreeRow (by decide) (List.head_mem _)⟩

lemma startsWithL_iff (pat s : List Char) :
    startsWithL pat s = true ↔ ∃ t, pat ++ t = s := by
  induction pat generalizing s with
  | nil => simp [startsWithL]
  | cons p ps ih =>
    cases s with
    | nil => simp [startsWithL]
    | cons c cs =>
      simp only [startsWithL, Bool.and_eq_true, beq_iff_eq, ih]
      constructor
      · rintro ⟨rfl, t, rfl⟩
        exact ⟨t, rfl⟩
      · rintro ⟨t, h⟩
        injection h with h1 h2
        exact ⟨h1, t, h2⟩

lemma hasSub_iff (pat s : List Char) :
    hasSub pat s = true ↔ ∃ l r, l ++ pat ++ r = s := by
  induction s with
  | nil =>
    simp only [hasSub, startsWithL_iff]
    constructor
    · rintro ⟨t, ht⟩
      exact ⟨[], t, by simpa using ht⟩
    · rintro ⟨l, r, h⟩
      rw [List.append_eq_nil] at h
      obtain ⟨h1, hr⟩ := h
      rw [List.append_eq_nil] at h1
      exact ⟨[], by simp [h1.2]⟩
  | cons c cs ih =>
    simp only [hasSub, Bool.or_eq_true, startsWithL_iff, ih]
    constructor
    · rintro (⟨t, ht⟩ | ⟨l, r, hr⟩)
      · exact ⟨[], t, by simpa using ht⟩
      · exact ⟨c :: l, r, by simp only [List.cons_append, hr]⟩
    · rintro ⟨l, r, h⟩
      cases l with
      | nil => exact Or.inl ⟨r, by simpa using h⟩
      | cons x xs =>
        simp only [List.cons_append] at h
        injection h with h1 h2
        exact Or.inr ⟨xs, r, h2⟩

/-- C8: the classifier labels a string ink-colour value `Independent` exactly
when the value contains one of the five fixed solid-colour names as a
(case-sensitive) substring, and labels it `Assorted` exactly otherwise. -/
theorem colorType_independent_iff :
    ∀ s : String,
      (Color_Type (Cell.str s) = "Independent" ↔
        ∃ m ∈ solidColors, ∃ l r, l ++ m.toList ++ r = s.toList) ∧
      (Color_Type (Cell.str s) = "Assorted" ↔
        ¬ ∃ m ∈ solidColors, ∃ l r, l ++ m.toList ++ r = s.toList) := by
  intro s
  have hiff : (solidColors.any fun c => hasSub c.toList s.toList) = true ↔
      ∃ m ∈ solidColors, ∃ l r, l ++ m.toList ++ r = s.toList := by
    rw [List.any_eq_true]
    constructor
    · rintro ⟨m, hm, hs⟩
      exact ⟨m, hm, (hasSub_iff _ _).mp hs⟩
    · rintro ⟨m, hm, hs⟩
      exact ⟨m, hm, (hasSub_iff _ _).mpr hs⟩
  by_cases h : (solidColors.any fun c => hasSub c.toList s.toList) = true
  · have hct : Color_Type (Cell.str s) = "Independent" := by
      simp only [Color_Type, Cell.pyStr]
      rw [if_pos h]
    refine ⟨?_, ?_⟩
    · rw [hct]
      exact iff_of_true rfl (hiff.mp h)
    · rw [hct]
      exact iff_of_false (by decide) fun hn => hn (hiff.mp h)
  · have hct : Color_Type (Cell.str s) = "Assorted" := by
      simp only [Color_Type, Cell.pyStr]
      rw [if_neg h]
    have hne : ¬ ∃ m ∈ solidColors, ∃ l r, l ++ m.toList ++ r = s.toList :=
      fun hx => h (hiff.mpr hx)
    refine ⟨?_, ?_⟩
    · rw [hct]
      exact iff_of_false (by decide) hne
    · rw [hct]
      exact iff_of_true rfl hne

/-- Witness for C8: a value containing the marker `White` is labelled
`Independent`; a value containing no marker is labelled `Assorted`. -/
theorem colorType_independent_iff_witness :
    Color_Type (Cell.str "Pearl White") = "Independent" ∧
      Color_Type (Cell.str "Rainbow") = "Assorted" := by
  constructor
  · exact (colorType_independent_iff "Pearl White").1.mpr
      ⟨"White", by decide, "Pearl ".toList, [], by decide⟩
  · refine (colorType_independent_iff "Rainbow").2.mpr ?_
    rintro ⟨m, hm, hlr⟩
    have hs := (hasSub_iff m.toList "Rainbow".toList).mpr hlr
    fin_cases hm <;> revert hs <;> decide

end Acrylic
